import Mathlib

/-!
Verification of the turn orchestration and recovery engine of the
kinder-denkspiele backend (`src/backend/app/services/`).

The Python services are shallowly embedded as pure Lean functions:

* External LLM / image calls (`llm_service.generate_text`,
  `llm_service.generate_image`) are modelled as oracle values of type
  `Except Err _`: `.ok` is the awaited return value, `.error` is a raised
  exception.  Where the code immediately parses a JSON response
  (`json.loads` plus `dict.get` field access), the oracle carries the
  parsed structure directly and `.error` covers both transport failures
  and `json.JSONDecodeError`.
* MongoDB documents become Lean structures.  Constant metadata fields
  that no service ever reads back (`userId`, `gameType`,
  `character_name`, `character_description`, `story_theme`,
  `reading_level`, `score`, `createdAt`) and wall-clock timestamps other
  than `completed_at` / `lastUpdated` are omitted; timestamps are `Nat`.
* `datetime.utcnow()` is passed in as an explicit `now : Nat` argument.
* Python truthiness on strings / lists / `None` is translated explicitly
  (`= ""`, `.isEmpty`, `Option`).
-/

namespace Kinder

/-- Raised Python exception: message (`str(e)`) and class name (`type(e).__name__`). -/
structure Err where
  msg : String
  ty : String
deriving DecidableEq, Repr

/-- Session `generation_status`: "generating" | "ready" | "error". -/
inductive Status where
  | generating
  | ready
  | error
deriving DecidableEq, Repr

/-- Image job status of the `pending_image` mailbox: "generating" | "ready" | "failed". -/
inductive ImgStatus where
  | generating
  | ready
  | failed
deriving DecidableEq, Repr

/-- One element of the session's `turns` array (game_engine.py:128, 360). -/
structure Turn where
  round : Nat
  choice_made : Option String
  story_text : String
  choices : List String
  image_url : Option String
  fun_nugget : String
  started_at : Nat
  completed_at : Option Nat
deriving DecidableEq, Repr

/-- One character registry entry (character_manager.py:36).  The
`description` key is present iff the narrator supplied a truthy
description, hence `Option String`. -/
structure Character where
  name : String
  description : Option String
  first_seen_round : Nat
  last_seen_round : Nat
deriving DecidableEq, Repr

/-- The `pending_image` status mailbox (image_generator.py:96, 165, 206).
The `started_at`/`completed_at` bookkeeping timestamps are omitted. -/
structure PendingImage where
  status : ImgStatus
  round : Nat
  image_url : Option String
  error : Option String
  error_type : Option String
deriving DecidableEq, Repr

/-- The session document fields read or written by the engine. -/
structure Session where
  turns : List Turn
  summary : String
  round : Nat
  generation_status : Status
  character_registry : List Character
  pending_image : Option PendingImage
  style_guide : String
  lastUpdated : Nat
deriving DecidableEq, Repr

/-- Python `str.upper()`.  (Lean's own `String.toUpper` is defined by
well-founded recursion on byte positions and does not reduce in the
kernel, so the character-list form is used throughout.) -/
def pyUpper (s : String) : String :=
  ⟨s.toList.map Char.toUpper⟩

/-- Python `str.strip(chars)`: drop the given characters from both ends. -/
def stripChars (cs : List Char) (s : String) : String :=
  ⟨((s.toList.dropWhile (· ∈ cs)).reverse.dropWhile (· ∈ cs)).reverse⟩

/-- The whitespace characters Python `str.strip()` removes. -/
def pyWhitespace : List Char :=
  [' ', Char.ofNat 9, Char.ofNat 10, Char.ofNat 13, Char.ofNat 11, Char.ofNat 12]

/-- Python `str.strip()` with no argument. -/
def pyStrip (s : String) : String :=
  stripChars pyWhitespace s

/-- Python `needle in hay` on strings. -/
def containsSub (hay needle : String) : Bool :=
  (List.range (hay.length + 1)).any fun i => needle.toList.isPrefixOf (hay.toList.drop i)

/-- Python dict assignment `m[k] = v`: replace the value in place when the
key exists, otherwise append the new key at the end (insertion order). -/
def dictInsert {α : Type} (m : List (String × α)) (k : String) (v : α) :
    List (String × α) :=
  if m.any (fun p => p.1 == k) then
    m.map fun p => if p.1 == k then (p.1, v) else p
  else
    m ++ [(k, v)]

/-- In-place update of the value stored under an existing key. -/
def dictModify {α : Type} (m : List (String × α)) (k : String) (f : α → α) :
    List (String × α) :=
  m.map fun p => if p.1 == k then (p.1, f p.2) else p

/-- Embeds `SessionManager.create_session` / `GameEngine.create_session`
(session_manager.py:40, game_engine.py:755): fresh document, zero turns,
status "generating". -/
def createSessionDoc (now : Nat) : Session :=
  { turns := []
    summary := ""
    round := 0
    generation_status := .generating
    character_registry := []
    pending_image := none
    style_guide := ""
    lastUpdated := now }

/-- Embeds `_recover_incomplete_turns` (game_engine.py:658-698, identical
to session_manager.py:89-127): drop turns whose `completed_at` is unset,
reset `round` to the number of surviving turns, and set status to
"ready" when any survive, else "error"; no write when every turn is
complete or the turn list is empty. -/
def recoverSession (now : Nat) (s : Session) : Session :=
  if s.turns.isEmpty then s
  else
    let completeTurns := s.turns.filter fun t => t.completed_at.isSome
    if completeTurns.length < s.turns.length then
      { s with
          turns := completeTurns
          generation_status := if completeTurns.isEmpty then .error else .ready
          round := completeTurns.length
          lastUpdated := now }
    else s

/-- One entry of the narrator's `characters_in_scene` list; both keys are
optional in the raw JSON. -/
structure CharInScene where
  name : Option String
  description : Option String
deriving DecidableEq, Repr

/-- The parsed JSON object returned by the narrator call.  Every field is
read through `dict.get` with a default, hence `Option`. -/
structure NarratorResponse where
  story_text : Option String
  choice_1 : Option String
  choice_2 : Option String
  choice_3 : Option String
  characters_in_scene : Option (List CharInScene)
deriving DecidableEq, Repr

/-- Embeds `_validate_safety` (game_engine.py:489-510, identical to
story_generator.py:59-87): ask the validator model, return whether
"SAFE" occurs in the upper-cased response; any raised exception is
swallowed and the text is treated as safe (fail-open). -/
def validateSafety (r : Except Err String) : Bool :=
  match r with
  | .error _ => true
  | .ok response => containsSub (pyUpper response) "SAFE"

/-- Fallback fun nugget (game_engine.py:561). -/
def funNuggetFallback : String :=
  "Wusstest du? Jede Geschichte, die du erlebst, ist einzigartig und magisch!"

/-- Embeds `_generate_fun_nugget` (game_engine.py:539-561): returns the
stripped LLM output, or the fixed fallback nugget when the call raised
(the exception is caught and never propagates). -/
def funNuggetOf (r : Except Err String) : String :=
  match r with
  | .error _ => funNuggetFallback
  | .ok s => stripChars [Char.ofNat 39] (stripChars [Char.ofNat 34] (pyStrip s))

/-- Embeds `_generate_style_guide` (game_engine.py:450-487): stripped LLM
output, or the fixed watercolor fallback on any exception. -/
def styleGuideOf (r : Except Err String) : String :=
  match r with
  | .error _ => "Watercolor fairy tale style with soft pastel colors, dreamy magical atmosphere"
  | .ok s => pyStrip s

/-- Embeds `_summarize_history` (game_engine.py:513-537): stripped summary
from the summarizer model, or the fixed one-line placeholder on any
exception. -/
def summarizeHistory (r : Except Err String) : String :=
  match r with
  | .error _ => "Die Geschichte bisher: Du hast ein spannendes Abenteuer erlebt."
  | .ok s => pyStrip s

/-- Embeds `_turns_to_history_text` (game_engine.py:709-733, identical to
history_builder.py:19-43): interleave "[Wahl]: choice" lines with story
text lines, join with blank lines, and prefix the summary plus a
separator when the summary is non-empty. -/
def turnsToHistoryText (turns : List Turn) (summary : String := "") : String :=
  let lines := turns.flatMap fun turn =>
    (match turn.choice_made with
     | some c => if c = "" then [] else ["[Wahl]: " ++ c]
     | none => []) ++
    (if turn.story_text = "" then [] else [turn.story_text])
  let historyText := String.intercalate "\n\n" lines
  if summary = "" then historyText else summary ++ "\n\n---\n\n" ++ historyText

/-- Result of the summarization block of `process_turn`. -/
structure HistoryResult where
  history : String
  summary : String
  didSummarize : Bool
deriving DecidableEq, Repr

/-- Embeds the summarization block of `process_turn`
(game_engine.py:280-298).  `interval` and `keep` are the config values
`summarization_interval` and `recent_turns_to_keep` (config.yaml is
external; the code's defaults are 5 and 5).  The summarizer oracle is
the awaited result of the dedicated summarization call. -/
def historyContext (interval keep : Nat) (newRound : Nat) (turns : List Turn)
    (currentSummary : String) (summarizer : Except Err String) : HistoryResult :=
  let shouldSummarize := newRound % interval == 0 && keep < turns.length
  if shouldSummarize then
    let oldTurns := if keep < turns.length then turns.take (turns.length - keep) else []
    let recentTurns := if keep < turns.length then turns.drop (turns.length - keep) else turns
    let updatedSummary :=
      if oldTurns.isEmpty then currentSummary
      else
        let newSummary := summarizeHistory summarizer
        if currentSummary = "" then newSummary
        else currentSummary ++ "\n\n" ++ newSummary
    { history := turnsToHistoryText recentTurns updatedSummary
      summary := updatedSummary
      didSummarize := true }
  else
    { history := turnsToHistoryText turns currentSummary
      summary := currentSummary
      didSummarize := false }

/-- Embeds `extract_characters_from_response`
(character_manager.py:12-48): entries without a truthy name are dropped;
the description key is kept only when truthy. -/
def extractCharactersFromResponse (r : NarratorResponse) (currentRound : Nat) :
    List Character :=
  (r.characters_in_scene.getD []).filterMap fun c =>
    let name := c.name.getD ""
    if name = "" then none
    else
      some { name := name
             description := c.description.bind fun d => if d = "" then none else some d
             first_seen_round := currentRound
             last_seen_round := currentRound }

/-- The loop body of `merge_characters` (character_manager.py:72-86): a
character whose name is already a key only gets `last_seen_round`
bumped; an unknown character is inserted only when it carries a
description and is skipped otherwise. -/
def mergeStep (currentRound : Nat) (m : List (String × Character))
    (c : Character) : List (String × Character) :=
  if m.any (fun p => p.1 == c.name) then
    dictModify m c.name fun old => { old with last_seen_round := currentRound }
  else if c.description.isNone then m
  else dictInsert m c.name c

/-- Embeds `merge_characters` (character_manager.py:50-88): build a dict
from the existing registry keyed by name, run `mergeStep` over the
observed characters, and return the dict values. -/
def mergeCharacters (existingRegistry newCharacters : List Character)
    (currentRound : Nat) : List Character :=
  let registryMap := existingRegistry.foldl (fun m c => dictInsert m c.name c) []
  let merged := newCharacters.foldl (mergeStep currentRound) registryMap
  merged.map fun p => p.2

/-- Bookkeeping invariant of the registry dict: every stored character's
name equals its key. -/
def KeysMatch (m : List (String × Character)) : Prop :=
  ∀ p ∈ m, p.2.name = p.1

/-- Embeds `get_character_descriptions` (character_manager.py:90-123):
name-to-description dict for the requested names, empty string when the
name is unknown or undescribed. -/
def getCharacterDescriptions (characterRegistry : List Character)
    (characterNames : List String) : List (String × String) :=
  let registryMap := characterRegistry.foldl
    (fun m c => if c.name = "" then m else dictInsert m c.name (c.description.getD "")) []
  characterNames.foldl (fun res n => dictInsert res n ((registryMap.lookup n).getD "")) []

/-- Safety fallback story used by `process_turn` (game_engine.py:354). -/
def processTurnFallbackStory : String :=
  "Oh, das war eine interessante Wendung! Aber lass uns eine andere Richtung einschlagen."

/-- Safety fallback story used by `start_adventure` (game_engine.py:121). -/
def startAdventureFallbackStory : String :=
  "Oh, lass uns eine andere Geschichte beginnen! Was passiert als Nächstes?"

/-- Oracle results of the external calls awaited during one
`process_turn`.  `narrator` already carries the parsed JSON (an `.error`
is a transport failure or a `json.JSONDecodeError`, both of which raise
at the same point). -/
structure TurnOracles where
  narrator : Except Err NarratorResponse
  funNugget : Except Err String
  validator : Except Err String
  summarizer : Except Err String
deriving Repr

/-- The `AdventureStepResponse` fields produced by `process_turn`,
extended with the non-fatal warnings the code emits through
`logger.warning` on unsafe content (game_engine.py:353) so that the
warning is observable in the model. -/
structure StepResult where
  story_text : String
  image_url : Option String
  choices : List String
  fun_nugget : String
  choices_history : List String
  round_number : Nat
  warnings : List String
deriving DecidableEq, Repr

/-- The three `choice_i` fields extracted and stripped from the narrator
response (game_engine.py:330-334). -/
def narratorChoices (r : NarratorResponse) : List String :=
  [pyStrip (r.choice_1.getD ""), pyStrip (r.choice_2.getD ""), pyStrip (r.choice_3.getD "")]

/-- The safety-validation step (game_engine.py:351-354 resp. 117-121):
keep the draft `story_text` when the check passes, replace it with the
given fixed fallback when the classifier deems it unsafe. -/
def safeStoryText (fallback : String) (validator : Except Err String)
    (r : NarratorResponse) : String :=
  if validateSafety validator then r.story_text.getD "" else fallback

/-- The new completed turn `process_turn` pushes (game_engine.py:360-369):
`completed_at` is set immediately, the image is back-filled later. -/
def processTurnNewTurn (now newRound : Nat) (choiceText : String)
    (o : TurnOracles) (r : NarratorResponse) : Turn :=
  { round := newRound
    choice_made := some choiceText
    story_text := safeStoryText processTurnFallbackStory o.validator r
    choices := narratorChoices r
    image_url := none
    fun_nugget := funNuggetOf o.funNugget
    started_at := now
    completed_at := some now }

/-- The session state written by a successful `process_turn`
(game_engine.py:371-387) on top of what recovery already wrote: push the
new turn, merge the character registry, advance `round`, set status
"ready", and persist the updated summary when one was produced. -/
def processTurnState (now : Nat) (sIn : Session) (choiceText : String)
    (o : TurnOracles) (r : NarratorResponse) : Session :=
  let s := recoverSession now sIn
  let newRound := s.round + 1
  let hr := historyContext 5 5 newRound s.turns s.summary o.summarizer
  { s with
      turns := s.turns ++ [processTurnNewTurn now newRound choiceText o r]
      character_registry := mergeCharacters s.character_registry
        (extractCharactersFromResponse r newRound) newRound
      round := newRound
      generation_status := .ready
      lastUpdated := now
      summary := if hr.didSummarize && hr.summary != "" then hr.summary else s.summary }

/-- The `AdventureStepResponse` a successful `process_turn` returns
(game_engine.py:434-441): no image yet, plus the warning log emitted on
unsafe content. -/
def processTurnStep (now : Nat) (sIn : Session) (_choiceText : String)
    (o : TurnOracles) (r : NarratorResponse) : StepResult :=
  let s := recoverSession now sIn
  let newRound := s.round + 1
  { story_text := safeStoryText processTurnFallbackStory o.validator r
    image_url := none
    choices := narratorChoices r
    fun_nugget := funNuggetOf o.funNugget
    choices_history := s.turns.filterMap fun t => t.choice_made.bind fun c =>
      if c = "" then none else some c
    round_number := newRound
    warnings := if validateSafety o.validator then [] else ["Unsafe content detected"] }

/-- Embeds `process_turn` (game_engine.py:252-448) for a session already
in the `turns` format (`_migrate_session_if_needed` is a no-op then):
recovery runs first, the summarization block (`historyContext`) computes
the prompt context fed to the narrator, the narrator and fun-nugget
calls are awaited jointly (`asyncio.gather`), the response is parsed,
characters merged, safety validated, and the new completed turn pushed.
A narrator transport or JSON-parse failure raises out of `process_turn`
and nothing is written beyond what recovery wrote; a fun-nugget failure
is absorbed inside `_generate_fun_nugget` and never raises. -/
def processTurn (now : Nat) (sIn : Session) (choiceText : String)
    (o : TurnOracles) : Except Err (Session × StepResult) :=
  match o.narrator with
  | .error e => .error e
  | .ok r =>
    .ok (processTurnState now sIn choiceText o r,
         processTurnStep now sIn choiceText o r)

/-- Embeds `_generate_choice_prompt` (image_generator.py:219-282): the
stripped LLM output, failing with an `LLMError` when the call raised or
the stripped result is shorter than 10 characters. -/
def choicePromptResult (r : Except Err String) : Except Err String :=
  match r with
  | .error e =>
    if e.ty = "LLMError" then .error e
    else .error { msg := "Failed to generate choice image prompt: " ++ e.msg, ty := "LLMError" }
  | .ok s =>
    if (pyStrip s).length < 10 then
      .error { msg := "Choice image prompt too short or empty", ty := "LLMError" }
    else .ok (pyStrip s)

/-- Embeds `_analyze_scene_intensity` (image_generator.py:284-336).  The
oracle carries the parsed `intensity_level` field (`none` when the key
is missing); a raised exception, a missing key, or an out-of-range value
all collapse to the default 3 — this step is never fatal. -/
def analyzeSceneIntensity (r : Except Err (Option Int)) : Int :=
  match r with
  | .error _ => 3
  | .ok d =>
    let intensity := d.getD 3
    if intensity < 1 || intensity > 5 then 3 else intensity

/-- The `image_variance` pools from config.yaml (external). -/
structure VarianceConfig where
  perspectives : List String
  lightingLow : List String
  lightingMedium : List String
  lightingHigh : List String
  framing : List String
deriving Repr

/-- Chosen variance parameters. -/
structure Variance where
  perspective : String
  lighting : String
  framing : String
deriving DecidableEq, Repr

/-- Python `random.choice(l)` with the randomness supplied as an index:
raises `IndexError` (here: `none`) on an empty pool. -/
def pyRandomChoice (l : List String) (i : Nat) : Option String :=
  if h : l.length = 0 then none
  else some (l.get ⟨i % l.length, Nat.mod_lt _ (Nat.pos_of_ne_zero h)⟩)

/-- Embeds `get_random_variance` (image_generator.py:25-56): uniform
perspective and framing, lighting from the pool gated by intensity
(low for intensity <= 2, medium for <= 3, high otherwise). -/
def getRandomVariance (cfg : VarianceConfig) (intensityLevel : Int)
    (i1 i2 i3 : Nat) : Option Variance :=
  let lightingPool :=
    if intensityLevel ≤ 2 then cfg.lightingLow
    else if intensityLevel ≤ 3 then cfg.lightingMedium
    else cfg.lightingHigh
  match pyRandomChoice cfg.perspectives i1, pyRandomChoice lightingPool i2,
      pyRandomChoice cfg.framing i3 with
  | some p, some l, some f => some { perspective := p, lighting := l, framing := f }
  | _, _, _ => none

/-- Embeds `_build_final_prompt` (image_generator.py:338-394). -/
def buildFinalPrompt (choicePrompt styleGuide : String)
    (characterDescriptions : List (String × String)) (v : Variance) : String :=
  let charLines := characterDescriptions.filterMap fun p =>
    if p.2 = "" then none else some (p.1 ++ ": " ++ p.2)
  let charText :=
    if charLines.isEmpty then "no specific character descriptions"
    else String.intercalate ", " charLines
  String.intercalate " "
    [choicePrompt,
     "\nStyle: " ++ styleGuide,
     "\nCharacters: " ++ charText,
     "\nPerspective: " ++ v.perspective,
     "\nLighting: " ++ v.lighting,
     "\nFraming: " ++ v.framing]

/-- Oracle results of the external calls of one image job. -/
structure ImgOracles where
  choicePrompt : Except Err String
  intensity : Except Err (Option Int)
  image : Except Err String
deriving Repr

/-- The Image Sub-pipeline steps 2-6 of `generate_choice_based_image`
(image_generator.py:109-152) as they appear inside the `try` block: the
first raised exception is the error with which the job fails; on success
the generated image URL is returned.  `i1 i2 i3` are the random indices
drawn by `get_random_variance`. -/
def imageJobResult (o : ImgOracles) (cfg : VarianceConfig)
    (styleGuide : String) (characterDescriptions : List (String × String))
    (i1 i2 i3 : Nat) : Except Err String :=
  match choicePromptResult o.choicePrompt with
  | .error e => .error e
  | .ok choicePromptText =>
    let intensity := analyzeSceneIntensity o.intensity
    match getRandomVariance cfg intensity i1 i2 i3 with
    | none => .error { msg := "Cannot choose from empty sequence", ty := "IndexError" }
    | some variance =>
      let _finalPrompt := buildFinalPrompt choicePromptText styleGuide
        characterDescriptions variance
      o.image

/-- MongoDB positional update `{"turns.round": r} / {"turns.$.image_url": url}`:
set the image URL on the first turn whose round matches. -/
def setFirstImage : List Turn → Nat → String → List Turn
  | [], _, _ => []
  | t :: ts, r, url =>
    if t.round = r then { t with image_url := some url } :: ts
    else t :: setFirstImage ts r url

/-- Embeds `generate_choice_based_image` (image_generator.py:58-217):
mark the `pending_image` mailbox "generating", run the job, and either
attach the URL to the matching turn and mark "ready" (no write at all
when no turn matches the round - `modified_count == 0`), or, on any
raised exception, record `{status: failed, error, error_type}` in the
mailbox and leave everything else untouched. -/
def generateChoiceBasedImage (s : Session) (currentRound : Nat)
    (o : ImgOracles) (cfg : VarianceConfig)
    (characterDescriptions : List (String × String)) (i1 i2 i3 : Nat) : Session :=
  let s1 := { s with pending_image := some (PendingImage.mk
    ImgStatus.generating currentRound none none none) }
  match imageJobResult o cfg s.style_guide characterDescriptions i1 i2 i3 with
  | .error e =>
    { s1 with pending_image := some (PendingImage.mk
        ImgStatus.failed currentRound none (some e.msg) (some e.ty)) }
  | .ok imageUrl =>
    if s1.turns.any (fun t => t.round == currentRound) then
      { s1 with
          turns := setFirstImage s1.turns currentRound imageUrl
          pending_image := some (PendingImage.mk
            ImgStatus.ready currentRound (some imageUrl) none none) }
    else s1

/-- Oracle results of the external calls awaited during
`start_adventure`, including the blocking round-1 image job. -/
structure StartOracles where
  styleGuide : Except Err String
  narrator : Except Err NarratorResponse
  funNugget : Except Err String
  validator : Except Err String
  choicePrompt : Except Err String
  intensity : Except Err (Option Int)
  image : Except Err String
deriving Repr

/-- Embeds the session document inserted by `start_adventure`
(game_engine.py:126-160): the state in which the session is first
exposed, with status "ready", round 1, and a first turn whose
`completed_at` is still null ("Will be set after image completes").
Returns `none` when the narrator call or its JSON parse raised, in which
case no document is inserted at all. -/
def startAdventureDoc (now : Nat) (o : StartOracles) : Option Session :=
  match o.narrator with
  | .error _ => none
  | .ok r =>
    let styleGuide := styleGuideOf o.styleGuide
    let funNugget := funNuggetOf o.funNugget
    let characters := extractCharactersFromResponse r 1
    let storyText := safeStoryText startAdventureFallbackStory o.validator r
    some
      { turns := [{ round := 1
                    choice_made := none
                    story_text := storyText
                    choices := narratorChoices r
                    image_url := none
                    fun_nugget := funNugget
                    started_at := now
                    completed_at := none }]
        summary := ""
        round := 1
        generation_status := .ready
        character_registry := characters
        pending_image := none
        style_guide := styleGuide
        lastUpdated := now }

/-- MongoDB positional update on the first turn whose round matches 1,
setting both `image_url` and `completed_at`. -/
def setRound1Complete (now : Nat) (url : String) : List Turn → List Turn
  | [] => []
  | t :: ts =>
    if t.round = 1 then { t with image_url := some url, completed_at := some now } :: ts
    else t :: setRound1Complete now url ts

/-- The update `start_adventure` issues after the blocking round-1 image
call succeeds (game_engine.py:217-226): set `image_url` and
`completed_at` on the first turn whose round matches 1. -/
def completeRound1Image (now : Nat) (url : String) (s : Session) : Session :=
  { s with turns := setRound1Complete now url s.turns }

/-- The round-1 image job of `start_adventure` (game_engine.py:191-215):
the same prompt-derivation / intensity / variance / image steps, but
run in the foreground; any raised exception aborts `start_adventure`
(after the session document was already inserted). -/
def startRound1Image (o : StartOracles) (cfg : VarianceConfig)
    (styleGuide : String) (characterDescriptions : List (String × String))
    (i1 i2 i3 : Nat) : Except Err String :=
  imageJobResult
    { choicePrompt := o.choicePrompt, intensity := o.intensity, image := o.image }
    cfg styleGuide characterDescriptions i1 i2 i3

/-- The session state left in the store by a full `start_adventure` call
(narrator must have succeeded, or nothing was inserted): the inserted
document, completed when the round-1 image job succeeded, unchanged when
it raised. -/
def startAdventureFinal (now : Nat) (o : StartOracles) (cfg : VarianceConfig)
    (i1 i2 i3 : Nat) : Option Session :=
  (startAdventureDoc now o).map fun d =>
    let charNames := d.character_registry.map fun c => c.name
    let charDescriptions := getCharacterDescriptions d.character_registry charNames
    match startRound1Image o cfg d.style_guide charDescriptions i1 i2 i3 with
    | .error _ => d
    | .ok url => completeRound1Image now url d

/-- Embeds `mark_error` (session_manager.py:129-145) and the error paths
of the background variants (game_engine.py:810-820, 845-856): status
"error" (the stored `generation_error` message is not modelled). -/
def markError (s : Session) : Session :=
  { s with generation_status := .error }

/-- Session states reachable through the public operations: session
creation, `start_adventure` (its insert, and the round-1 image
completion), `process_turn` (success, and the failure path that leaves
the state recovery wrote, marked "error" by the background variant),
standalone recovery, and the detached image job. -/
inductive Reachable : Session → Prop where
  | created (now : Nat) : Reachable (createSessionDoc now)
  | started (now : Nat) (o : StartOracles) (d : Session) :
      startAdventureDoc now o = some d → Reachable d
  | startImage (now : Nat) (url : String) (s : Session) :
      Reachable s → Reachable (completeRound1Image now url s)
  | turnOk (now : Nat) (choiceText : String) (o : TurnOracles) (s : Session)
      (res : Session × StepResult) :
      Reachable s → processTurn now s choiceText o = .ok res → Reachable res.1
  | recovered (now : Nat) (s : Session) :
      Reachable s → Reachable (recoverSession now s)
  | markedErr (s : Session) : Reachable s → Reachable (markError s)
  | imageJob (s : Session) (currentRound : Nat) (o : ImgOracles)
      (cfg : VarianceConfig) (cd : List (String × String)) (i1 i2 i3 : Nat) :
      Reachable s → Reachable (generateChoiceBasedImage s currentRound o cfg cd i1 i2 i3)

/-- The inductive invariant of the state machine: turn rounds are exactly
1..N in order, the session's `round` field equals the number of turns,
and at most the last turn can be incomplete. -/
def Inv (s : Session) : Prop :=
  s.turns.map Turn.round = List.range' 1 s.turns.length ∧
  s.round = s.turns.length ∧
  ∀ t ∈ s.turns.dropLast, t.completed_at.isSome

/-! Concrete sample inputs used by witnesses and counterexamples. -/

/-- A well-formed parsed narrator response. -/
def exNarrator : NarratorResponse :=
  { story_text := some "Es war einmal ein Hase."
    choice_1 := some "Geh links"
    choice_2 := some "Geh rechts"
    choice_3 := some "Bleib hier"
    characters_in_scene := some [{ name := some "Mira", description := some "rote Jacke" }] }

/-- Start-adventure oracles where every external call succeeds. -/
def exStartOracles : StartOracles :=
  { styleGuide := .ok "Aquarell"
    narrator := .ok exNarrator
    funNugget := .ok "Hasen sind schnell."
    validator := .ok "SAFE"
    choicePrompt := .ok "a small rabbit in a forest"
    intensity := .ok (some 3)
    image := .ok "http://img/1.png" }

/-- The session document `start_adventure` inserts for `exStartOracles`. -/
def exStartedDoc : Session := (startAdventureDoc 0 exStartOracles).getD (createSessionDoc 0)

/-- A complete sample turn with round `r`, story "S`r`" and choice "c`r`". -/
def mkTurn (r : Nat) : Turn :=
  { round := r
    choice_made := if r = 1 then none else some ("c" ++ toString r)
    story_text := "S" ++ toString r
    choices := []
    image_url := none
    fun_nugget := ""
    started_at := 0
    completed_at := some 0 }

/-- Ten complete sample turns, rounds 1..10. -/
def exTurns10 : List Turn := (List.range' 1 10).map mkTurn

/-- A session after ten completed rounds, with a non-empty rolling summary. -/
def exSession10 : Session :=
  { turns := exTurns10
    summary := "Z"
    round := 10
    generation_status := .ready
    character_registry := []
    pending_image := none
    style_guide := "w"
    lastUpdated := 0 }

/-- Turn oracles where every external call succeeds. -/
def exTurnOracles : TurnOracles :=
  { narrator := .ok exNarrator
    funNugget := .ok "Igel rollen sich ein."
    validator := .ok "SAFE"
    summarizer := .ok "sum" }

/-- Turn oracles whose fun-nugget call raises. -/
def exTurnOraclesNuggetFail : TurnOracles :=
  { exTurnOracles with funNugget := .error { msg := "boom", ty := "LLMError" } }

/-- Turn oracles whose safety classifier deems the draft unsafe. -/
def exTurnOraclesUnsafe : TurnOracles :=
  { exTurnOracles with validator := .ok "DANGER" }

/-- Turn oracles whose safety classifier call itself raises. -/
def exTurnOraclesValFail : TurnOracles :=
  { exTurnOracles with validator := .error { msg := "timeout", ty := "LLMError" } }

/-- A session holding one complete and one incomplete (crashed) turn. -/
def exSessionIncomplete : Session :=
  { turns := [mkTurn 1, { mkTurn 2 with completed_at := none }]
    summary := ""
    round := 2
    generation_status := .generating
    character_registry := []
    pending_image := none
    style_guide := ""
    lastUpdated := 0 }

/-- Image oracles whose image-service call raises a timeout. -/
def exImgOraclesFail : ImgOracles :=
  { choicePrompt := .ok "a rabbit jumping over a brook"
    intensity := .ok (some 2)
    image := .error { msg := "Read timed out", ty := "TimeoutError" } }

/-- A sample variance configuration with non-empty pools. -/
def exVarianceConfig : VarianceConfig :=
  { perspectives := ["eye level"]
    lightingLow := ["soft morning light"]
    lightingMedium := ["golden hour"]
    lightingHigh := ["dramatic sunset"]
    framing := ["wide shot"] }

/-- Registered sample character. -/
def exMira : Character :=
  { name := "Mira", description := some "rote Jacke", first_seen_round := 1, last_seen_round := 1 }

/-- The same character observed again in round 3, name only. -/
def exMiraObs : Character :=
  { name := "Mira", description := none, first_seen_round := 3, last_seen_round := 3 }

/-- A described newcomer observed in round 3. -/
def exFuchs : Character :=
  { name := "Fuchs", description := some "oranges Fell", first_seen_round := 3, last_seen_round := 3 }

/-- An undescribed newcomer observed in round 3. -/
def exRabe : Character :=
  { name := "Rabe", description := none, first_seen_round := 3, last_seen_round := 3 }

/-- Sample registry for the character-merge witness. -/
def exRegistry : List Character := [exMira]

/-- Sample observed characters: one returning, one described newcomer,
one undescribed newcomer. -/
def exObserved : List Character := [exMiraObs, exFuchs, exRabe]

/-! Helper lemmas about recovery. -/

/-- A filter that keeps everything is the identity, phrased via lengths. -/
theorem filter_eq_self_of_not_lt {α : Type} (p : α → Bool) (l : List α)
    (h : ¬ (l.filter p).length < l.length) : l.filter p = l :=
  (List.filter_sublist l).eq_of_length
    (Nat.le_antisymm (List.length_filter_le p l) (Nat.le_of_not_lt h))

/-- Dropping at least one element makes the filter strictly shorter. -/
theorem length_filter_lt_of_exists {α : Type} (p : α → Bool) (l : List α)
    (h : ∃ x ∈ l, p x = false) : (l.filter p).length < l.length := by
  by_contra hlt
  obtain ⟨x, hx, hpx⟩ := h
  have := List.filter_eq_self.mp (filter_eq_self_of_not_lt p l hlt) x hx
  rw [hpx] at this
  cases this

/-- Every turn surviving recovery is complete: recovery either rewrote the
turn list to the complete-only filter, or it changed nothing because every
turn was already complete (or there were none). -/
theorem recover_allComplete (now : Nat) (s : Session) :
    ∀ t ∈ (recoverSession now s).turns, t.completed_at.isSome := by
  intro t ht
  unfold recoverSession at ht
  by_cases h0 : s.turns.isEmpty
  · rw [if_pos h0] at ht
    rw [List.isEmpty_iff] at h0
    rw [h0] at ht
    cases ht
  · rw [if_neg h0] at ht
    by_cases hlt : (s.turns.filter fun t => t.completed_at.isSome).length < s.turns.length
    · rw [if_pos hlt] at ht
      exact (List.mem_filter.mp ht).2
    · rw [if_neg hlt] at ht
      exact List.filter_eq_self.mp
        (filter_eq_self_of_not_lt (fun t => t.completed_at.isSome) s.turns hlt) t ht

/-- Recovery is the identity on a session whose turns are all complete. -/
theorem recover_of_allComplete (now : Nat) (s : Session)
    (h : ∀ t ∈ s.turns, t.completed_at.isSome) : recoverSession now s = s := by
  unfold recoverSession
  by_cases h0 : s.turns.isEmpty
  · rw [if_pos h0]
  · rw [if_neg h0]
    have heq : (s.turns.filter fun t => t.completed_at.isSome) = s.turns :=
      List.filter_eq_self.mpr h
    simp only [heq, Nat.lt_irrefl, if_false]

/-- C6: Recovery is idempotent: for every session state, running
`_recover_incomplete_turns` twice in a row produces the same session
state (turns, round, status - indeed the identical document) as running
it once: the first run leaves only complete turns, so the second run
takes the no-write branch. -/
theorem recover_idempotent (now1 now2 : Nat) (s : Session) :
    recoverSession now2 (recoverSession now1 s) = recoverSession now1 s :=
  recover_of_allComplete now2 (recoverSession now1 s) (recover_allComplete now1 s)

/-- C4: On a session holding at least one incomplete turn, recovery keeps
exactly the complete turns (in order), resets `round` to their count,
sets status "ready" when any remain and "error" otherwise, and touches
nothing else; a session whose turns are all complete (in particular one
with no turns) is left unmodified. -/
theorem recover_spec (now : Nat) (s : Session)
    (h : ∃ t ∈ s.turns, t.completed_at = none) :
    ((recoverSession now s).turns = s.turns.filter (fun t => t.completed_at.isSome) ∧
     (recoverSession now s).round =
       (s.turns.filter fun t => t.completed_at.isSome).length ∧
     (recoverSession now s).generation_status =
       (if (s.turns.filter fun t => t.completed_at.isSome).isEmpty
        then Status.error else Status.ready) ∧
     (recoverSession now s).summary = s.summary ∧
     (recoverSession now s).character_registry = s.character_registry ∧
     (recoverSession now s).pending_image = s.pending_image) ∧
    (∀ s2 : Session, (∀ t ∈ s2.turns, t.completed_at.isSome) →
      recoverSession now s2 = s2) := by
  constructor
  · obtain ⟨t0, ht0, hc0⟩ := h
    have h0 : ¬ s.turns.isEmpty := by
      rw [List.isEmpty_iff]
      intro he
      rw [he] at ht0
      cases ht0
    have hlt : (s.turns.filter fun t => t.completed_at.isSome).length < s.turns.length := by
      refine length_filter_lt_of_exists _ _ ⟨t0, ht0, ?_⟩
      rw [hc0]
      rfl
    unfold recoverSession
    rw [if_neg h0, if_pos hlt]
    refine ⟨rfl, rfl, ?_, rfl, rfl, rfl⟩
    rfl
  · exact fun s2 h2 => recover_of_allComplete now s2 h2

/-- Witness for `recover_spec` on a concrete crashed session: the
incomplete round-2 turn is dropped, the round resets to 1 and the status
becomes "ready". -/
theorem recover_spec_witness :
    (∃ t ∈ exSessionIncomplete.turns, t.completed_at = none) ∧
    ((recoverSession 9 exSessionIncomplete).turns = [mkTurn 1] ∧
     (recoverSession 9 exSessionIncomplete).round = 1 ∧
     (recoverSession 9 exSessionIncomplete).generation_status = Status.ready) := by
  have h : ∃ t ∈ exSessionIncomplete.turns, t.completed_at = none := by
    refine ⟨{ mkTurn 2 with completed_at := none }, ?_, rfl⟩
    simp [exSessionIncomplete]
  refine ⟨h, ?_, ?_, ?_⟩
  · rw [(recover_spec 9 exSessionIncomplete h).1.1]
    decide
  · rw [(recover_spec 9 exSessionIncomplete h).1.2.1]
    decide
  · rw [(recover_spec 9 exSessionIncomplete h).1.2.2.1]
    decide

/-! Invariant machinery for reachable session states. -/

/-- When at most the last element can fail the predicate, filtering keeps
everything or exactly drops the last element. -/
theorem filter_or_dropLast {α : Type} (p : α → Bool) (l : List α)
    (h : ∀ x ∈ l.dropLast, p x) : l.filter p = l ∨ l.filter p = l.dropLast := by
  rcases List.eq_nil_or_concat l with rfl | ⟨l2, a, rfl⟩
  · left; rfl
  · rw [List.concat_eq_append] at h ⊢
    rw [List.dropLast_concat] at h ⊢
    have h2 : l2.filter p = l2 := List.filter_eq_self.mpr h
    by_cases hpa : p a
    · left
      rw [List.filter_append, h2]
      simp [hpa]
    · right
      rw [List.filter_append, h2]
      simp [hpa]

/-- Dropping the last element of an arithmetic range shortens it by one. -/
theorem dropLast_range' (s n : Nat) :
    (List.range' s n).dropLast = List.range' s (n - 1) := by
  cases n with
  | zero => rfl
  | succ n => rw [List.range'_concat, List.dropLast_concat, Nat.succ_sub_one]

/-- Recovery preserves the state invariant. -/
theorem inv_recover (now : Nat) (s : Session) (h : Inv s) :
    Inv (recoverSession now s) := by
  obtain ⟨hmap, hround, hcomp⟩ := h
  unfold recoverSession
  by_cases h0 : s.turns.isEmpty
  · rw [if_pos h0]
    exact ⟨hmap, hround, hcomp⟩
  · rw [if_neg h0]
    by_cases hlt : (s.turns.filter fun t => t.completed_at.isSome).length < s.turns.length
    · rw [if_pos hlt]
      rcases filter_or_dropLast (fun t => t.completed_at.isSome) s.turns hcomp with he | he
      · rw [he] at hlt
        exact absurd hlt (Nat.lt_irrefl _)
      · refine ⟨?_, rfl, ?_⟩
        · show (s.turns.filter fun t => t.completed_at.isSome).map Turn.round =
            List.range' 1 (s.turns.filter fun t => t.completed_at.isSome).length
          rw [he, List.map_dropLast, hmap, dropLast_range', List.length_dropLast]
        · intro t ht
          show t.completed_at.isSome
          rw [he] at ht
          exact hcomp t ((List.dropLast_sublist _).mem ht)
    · rw [if_neg hlt]
      exact ⟨hmap, hround, hcomp⟩

/-- The positional image update does not change the round sequence. -/
theorem setFirstImage_map_round (r : Nat) (url : String) (ts : List Turn) :
    (setFirstImage ts r url).map Turn.round = ts.map Turn.round := by
  induction ts with
  | nil => rfl
  | cons t ts ih =>
    unfold setFirstImage
    by_cases h : t.round = r
    · rw [if_pos h]
      simp only [List.map_cons, ih]
    · rw [if_neg h]
      simp only [List.map_cons, ih]

/-- The positional image update does not change any completion stamp. -/
theorem setFirstImage_map_completed (r : Nat) (url : String) (ts : List Turn) :
    (setFirstImage ts r url).map Turn.completed_at = ts.map Turn.completed_at := by
  induction ts with
  | nil => rfl
  | cons t ts ih =>
    unfold setFirstImage
    by_cases h : t.round = r
    · rw [if_pos h]
      simp only [List.map_cons, ih]
    · rw [if_neg h]
      simp only [List.map_cons, ih]

/-- The start-adventure completion update does not change the round sequence. -/
theorem setRound1Complete_map_round (now : Nat) (url : String) (ts : List Turn) :
    (setRound1Complete now url ts).map Turn.round = ts.map Turn.round := by
  induction ts with
  | nil => rfl
  | cons t ts ih =>
    unfold setRound1Complete
    by_cases h : t.round = 1
    · rw [if_pos h]
      simp only [List.map_cons, ih]
    · rw [if_neg h]
      simp only [List.map_cons, ih]

/-- Completeness of all turns but the last survives a pointwise update
that never clears a completion stamp. -/
theorem dropLast_complete_of_map_eq {ts ts2 : List Turn}
    (hmap : ts2.map Turn.completed_at = ts.map Turn.completed_at)
    (h : ∀ t ∈ ts.dropLast, t.completed_at.isSome) :
    ∀ t ∈ ts2.dropLast, t.completed_at.isSome := by
  intro t ht
  have h1 : t.completed_at ∈ ts2.dropLast.map Turn.completed_at :=
    List.mem_map_of_mem Turn.completed_at ht
  rw [List.map_dropLast, hmap, ← List.map_dropLast] at h1
  obtain ⟨u, hu, he⟩ := List.mem_map.mp h1
  rw [← he]
  exact h u hu

/-- The start-adventure completion update keeps all-but-last turns complete. -/
theorem setRound1Complete_dropLast_complete (now : Nat) (url : String) :
    ∀ ts : List Turn, (∀ t ∈ ts.dropLast, t.completed_at.isSome) →
      ∀ t ∈ (setRound1Complete now url ts).dropLast, t.completed_at.isSome := by
  intro ts
  induction ts with
  | nil =>
    intro _ t ht
    cases ht
  | cons a ts ih =>
    intro h t ht
    unfold setRound1Complete at ht
    by_cases ha : a.round = 1
    · rw [if_pos ha] at ht
      cases ts with
      | nil => cases ht
      | cons b ts2 =>
        rw [List.dropLast_cons₂] at ht
        rcases List.mem_cons.mp ht with rfl | hmem
        · rfl
        · refine h t ?_
          rw [List.dropLast_cons₂]
          exact List.mem_cons_of_mem _ hmem
    · rw [if_neg ha] at ht
      cases ts with
      | nil => cases ht
      | cons b ts2 =>
        have hX : ∃ c cs, setRound1Complete now url (b :: ts2) = c :: cs := by
          unfold setRound1Complete
          by_cases hb : b.round = 1
          · rw [if_pos hb]
            exact ⟨_, _, rfl⟩
          · rw [if_neg hb]
            exact ⟨_, _, rfl⟩
        obtain ⟨c, cs, hcs⟩ := hX
        rw [hcs, List.dropLast_cons₂] at ht
        rcases List.mem_cons.mp ht with rfl | hmem
        · refine h t ?_
          rw [List.dropLast_cons₂]
          exact List.mem_cons_self _ _
        · rw [← hcs] at hmem
          refine ih ?_ t hmem
          intro u hu
          refine h u ?_
          rw [List.dropLast_cons₂]
          exact List.mem_cons_of_mem _ hu

/-- Completing the round-1 image preserves the state invariant. -/
theorem inv_completeRound1 (now : Nat) (url : String) (s : Session)
    (h : Inv s) : Inv (completeRound1Image now url s) := by
  obtain ⟨hmap, hround, hcomp⟩ := h
  have hlen : (setRound1Complete now url s.turns).length = s.turns.length := by
    have := congrArg List.length (setRound1Complete_map_round now url s.turns)
    simpa using this
  refine ⟨?_, ?_, ?_⟩
  · show (setRound1Complete now url s.turns).map Turn.round =
      List.range' 1 (setRound1Complete now url s.turns).length
    rw [setRound1Complete_map_round, hmap, hlen]
  · show s.round = (setRound1Complete now url s.turns).length
    rw [hlen]
    exact hround
  · exact setRound1Complete_dropLast_complete now url s.turns hcomp

/-- The detached image job preserves the state invariant. -/
theorem inv_imageJob (s : Session) (currentRound : Nat) (o : ImgOracles)
    (cfg : VarianceConfig) (cd : List (String × String)) (i1 i2 i3 : Nat)
    (h : Inv s) : Inv (generateChoiceBasedImage s currentRound o cfg cd i1 i2 i3) := by
  obtain ⟨hmap, hround, hcomp⟩ := h
  unfold generateChoiceBasedImage
  cases imageJobResult o cfg s.style_guide cd i1 i2 i3 with
  | error e => exact ⟨hmap, hround, hcomp⟩
  | ok url =>
    dsimp only
    by_cases hany : s.turns.any fun t => t.round == currentRound
    · rw [if_pos hany]
      have hlen : (setFirstImage s.turns currentRound url).length = s.turns.length := by
        have := congrArg List.length (setFirstImage_map_round currentRound url s.turns)
        simpa using this
      refine ⟨?_, ?_, ?_⟩
      · show (setFirstImage s.turns currentRound url).map Turn.round =
          List.range' 1 (setFirstImage s.turns currentRound url).length
        rw [setFirstImage_map_round, hmap, hlen]
      · show s.round = (setFirstImage s.turns currentRound url).length
        rw [hlen]
        exact hround
      · exact dropLast_complete_of_map_eq
          (setFirstImage_map_completed currentRound url s.turns) hcomp
    · rw [if_neg hany]
      exact ⟨hmap, hround, hcomp⟩

/-- The document inserted by `start_adventure` satisfies the invariant. -/
theorem inv_startDoc (now : Nat) (o : StartOracles) (d : Session)
    (hd : startAdventureDoc now o = some d) : Inv d := by
  cases hn : o.narrator with
  | error e =>
    rw [startAdventureDoc, hn] at hd
    cases hd
  | ok r =>
    rw [startAdventureDoc, hn] at hd
    simp only [Option.some.injEq] at hd
    subst hd
    exact ⟨rfl, rfl, by intro t ht; cases ht⟩

/-- A successful `process_turn` preserves the state invariant. -/
theorem inv_processTurnState (now : Nat) (sIn : Session) (choiceText : String)
    (o : TurnOracles) (r : NarratorResponse) (h : Inv sIn) :
    Inv (processTurnState now sIn choiceText o r) := by
  obtain ⟨hmap, hround, _⟩ := inv_recover now sIn h
  have hall := recover_allComplete now sIn
  unfold processTurnState
  dsimp only
  refine ⟨?_, ?_, ?_⟩
  · rw [List.map_append, hmap]
    simp only [processTurnNewTurn, List.map_cons, List.map_nil, List.length_append,
      List.length_cons, List.length_nil, hround]
    rw [List.range'_concat]
    simp [Nat.add_comm]
  · simp only [List.length_append, List.length_cons, List.length_nil, hround]
  · intro t ht
    rw [List.dropLast_concat] at ht
    exact hall t ht

/-- Marking a session "error" preserves the state invariant. -/
theorem inv_markError (s : Session) (h : Inv s) : Inv (markError s) := h

/-- Every reachable session state satisfies the invariant: rounds are
exactly 1..N, the `round` field counts the turns, and only the last turn
can be incomplete. -/
theorem reachable_inv (s : Session) (h : Reachable s) : Inv s := by
  induction h with
  | created now =>
    exact ⟨rfl, rfl, by intro t ht; cases ht⟩
  | started now o d hd => exact inv_startDoc now o d hd
  | startImage now url s _ ih => exact inv_completeRound1 now url s ih
  | turnOk now choiceText o s res _ hres ih =>
    cases hn : o.narrator with
    | error e =>
      rw [processTurn, hn] at hres
      cases hres
    | ok r =>
      rw [processTurn, hn] at hres
      simp only [Except.ok.injEq] at hres
      rw [← hres]
      exact inv_processTurnState now s choiceText o r ih
  | recovered now s _ ih => exact inv_recover now s ih
  | markedErr s _ ih => exact inv_markError s ih
  | imageJob s currentRound o cfg cd i1 i2 i3 _ ih =>
    exact inv_imageJob s currentRound o cfg cd i1 i2 i3 ih

/-- C5: For every session state reachable through the public operations,
after recovery has run the `round` fields of the session's turns are
exactly 1, 2, ..., N in order, where N is the number of turns. -/
theorem rounds_contiguous_after_recovery (now : Nat) (s : Session)
    (h : Reachable s) :
    (recoverSession now s).turns.map Turn.round =
      List.range' 1 (recoverSession now s).turns.length :=
  (inv_recover now s (reachable_inv s h)).1

/-- Witness for `rounds_contiguous_after_recovery` on the concrete
session inserted by `start_adventure`. -/
theorem rounds_contiguous_after_recovery_witness :
    Reachable exStartedDoc ∧
    (recoverSession 7 exStartedDoc).turns.map Turn.round =
      List.range' 1 (recoverSession 7 exStartedDoc).turns.length := by
  have hr : Reachable exStartedDoc :=
    Reachable.started 0 exStartOracles exStartedDoc (by decide)
  exact ⟨hr, rounds_contiguous_after_recovery 7 exStartedDoc hr⟩

/-- C1 counterexample: the very document with which `start_adventure`
first exposes the session (the `insert_one` at game_engine.py:158) is a
reachable state whose status is "ready" while its only turn still has
`completed_at = None` ("Will be set after image completes",
game_engine.py:136): the claimed invariant fails there. -/
theorem ready_with_incomplete_last_turn :
    Reachable exStartedDoc ∧
    exStartedDoc.generation_status = Status.ready ∧
    (exStartedDoc.turns.getLast?).map Turn.completed_at = some none := by
  exact ⟨Reachable.started 0 exStartOracles exStartedDoc (by decide), by decide, by decide⟩

/-- C1 amended: the ready-implies-last-turn-complete implication holds
for every state written by a successful `process_turn`, for every state
recovery outputs, and for the `start_adventure` state once the round-1
image has completed; only the document `start_adventure` first inserts
is exposed as "ready" with the first turn's `completed_at` still null. -/
theorem ready_implies_last_complete_amended :
    (∀ (now : Nat) (sIn : Session) (choiceText : String) (o : TurnOracles)
       (res : Session × StepResult), processTurn now sIn choiceText o = .ok res →
       res.1.generation_status = Status.ready ∧
       ∀ t, res.1.turns.getLast? = some t → t.completed_at.isSome) ∧
    (∀ (now : Nat) (s : Session) (t : Turn),
       (recoverSession now s).generation_status = Status.ready →
       (recoverSession now s).turns.getLast? = some t → t.completed_at.isSome) ∧
    (∀ (now : Nat) (o : StartOracles) (d : Session) (now2 : Nat) (url : String)
       (t : Turn), startAdventureDoc now o = some d →
       (completeRound1Image now2 url d).turns.getLast? = some t →
       t.completed_at.isSome) := by
  refine ⟨?_, ?_, ?_⟩
  · intro now sIn choiceText o res hres
    cases hn : o.narrator with
    | error e =>
      rw [processTurn, hn] at hres
      cases hres
    | ok r =>
      rw [processTurn, hn] at hres
      simp only [Except.ok.injEq] at hres
      rw [← hres]
      constructor
      · rfl
      · intro t ht
        unfold processTurnState at ht
        dsimp only at ht
        rw [List.getLast?_concat] at ht
        injection ht with ht2
        rw [← ht2]
        rfl
  · intro now s t _hready hlast
    exact recover_allComplete now s t (List.mem_of_getLast?_eq_some hlast)
  · intro now o d now2 url t hd hlast
    cases hn : o.narrator with
    | error e =>
      rw [startAdventureDoc, hn] at hd
      cases hd
    | ok r =>
      rw [startAdventureDoc, hn] at hd
      simp only [Option.some.injEq] at hd
      subst hd
      unfold completeRound1Image at hlast
      dsimp only at hlast
      unfold setRound1Complete at hlast
      rw [if_pos rfl] at hlast
      simp only [List.getLast?_singleton] at hlast
      injection hlast with ht2
      rw [← ht2]
      rfl

/-- Witness for `ready_implies_last_complete_amended` on the recovery
part, at a concrete crashed session whose recovery is "ready". -/
theorem ready_implies_last_complete_amended_witness :
    ((recoverSession 9 exSessionIncomplete).generation_status = Status.ready ∧
     (recoverSession 9 exSessionIncomplete).turns.getLast? = some (mkTurn 1)) ∧
    (mkTurn 1).completed_at.isSome := by
  refine ⟨⟨by decide, by decide⟩, ?_⟩
  exact ready_implies_last_complete_amended.2.1 9 exSessionIncomplete (mkTurn 1)
    (by decide) (by decide)

set_option maxRecDepth 40000 in
/-- C2 counterexample: with `summarizationInterval = 5` and
`recentTurnsToKeep = 5`, at round 11 — strictly greater than 10 but not
a multiple of 5 — the summarization trigger does not fire and
`process_turn` renders the full stored turn list (turns are never pruned
from the session), so the raw round-1 story text "S1" and the raw
round-2 choice text "c2" appear in the rendered prompt context even
though neither occurs in the rolling summary "Z". -/
theorem raw_round1_text_in_round11_prompt :
    (containsSub (historyContext 5 5 11 exTurns10 "Z" (.ok "zzz")).history "S1" = true ∧
     containsSub (historyContext 5 5 11 exTurns10 "Z" (.ok "zzz")).history "c2" = true) ∧
    containsSub "Z" "S1" = false ∧ containsSub "Z" "c2" = false := by
  exact ⟨⟨by decide, by decide⟩, by decide, by decide⟩

/-- C2 amended: on rounds where the compaction trigger fires
(`round % 5 == 0` and more than 5 stored turns), the rendered prompt
context is built from the last 5 turns and the updated rolling summary
only — in particular it does not depend on the content of the older
turns beyond the summarizer call's result; on other rounds (such as 11)
the full turn list is rendered, including raw text of rounds 1-4. -/
theorem compaction_on_trigger_rounds (newRound : Nat) (ts ts2 : List Turn)
    (summary : String) (o : Except Err String)
    (hmod : newRound % 5 = 0) (hlen : 5 < ts.length) :
    (historyContext 5 5 newRound ts summary o).history =
      turnsToHistoryText (ts.drop (ts.length - 5))
        (if summary = "" then summarizeHistory o
         else summary ++ "\n\n" ++ summarizeHistory o) ∧
    (5 < ts2.length → ts.drop (ts.length - 5) = ts2.drop (ts2.length - 5) →
      (historyContext 5 5 newRound ts summary o).history =
        (historyContext 5 5 newRound ts2 summary o).history) := by
  have key : ∀ l : List Turn, 5 < l.length →
      (historyContext 5 5 newRound l summary o).history =
        turnsToHistoryText (l.drop (l.length - 5))
          (if summary = "" then summarizeHistory o
           else summary ++ "\n\n" ++ summarizeHistory o) := by
    intro l hl
    unfold historyContext
    have hs : (newRound % 5 == 0 && decide (5 < l.length)) = true := by
      simp [hmod, hl]
    rw [if_pos hs]
    dsimp only
    rw [if_pos hl, if_pos hl]
    have htake : (l.take (l.length - 5)).isEmpty = false := by
      have h1 : (l.take (l.length - 5)).length = min (l.length - 5) l.length :=
        List.length_take _ _
      cases he : (l.take (l.length - 5)).isEmpty
      · rfl
      · exfalso
        rw [List.isEmpty_iff] at he
        rw [he] at h1
        simp only [List.length_nil] at h1
        omega
    rw [htake]
    simp only [Bool.false_eq_true, if_false]
  refine ⟨key ts hlen, fun h2 hdrop => ?_⟩
  rw [key ts hlen, key ts2 h2, hdrop]

/-- Witness for `compaction_on_trigger_rounds` at round 15 with ten
stored turns: the rendered context equals the render of the last five
turns prefixed by the extended summary. -/
theorem compaction_on_trigger_rounds_witness :
    (15 % 5 = 0 ∧ 5 < exTurns10.length) ∧
    (historyContext 5 5 15 exTurns10 "Z" (.ok "NEWSUM")).history =
      turnsToHistoryText (exTurns10.drop (exTurns10.length - 5))
        (if ("Z" : String) = "" then summarizeHistory (.ok "NEWSUM")
         else "Z" ++ "\n\n" ++ summarizeHistory (.ok "NEWSUM")) := by
  exact ⟨⟨by decide, by decide⟩,
    (compaction_on_trigger_rounds 15 exTurns10 exTurns10 "Z" (.ok "NEWSUM")
      (by decide) (by decide)).1⟩

/-- C3 counterexample: the fun-nugget call's underlying LLM request
raises, yet `process_turn` still succeeds and appends a turn — the
exception is absorbed inside `_generate_fun_nugget`, which returns the
fixed fallback nugget instead of aborting the turn. -/
theorem nugget_failure_does_not_abort :
    exTurnOraclesNuggetFail.funNugget = .error { msg := "boom", ty := "LLMError" } ∧
    (processTurn 1 exSession10 "Geh links" exTurnOraclesNuggetFail).isOk = true ∧
    ((processTurn 1 exSession10 "Geh links" exTurnOraclesNuggetFail).toOption.map
      fun p => p.1.turns.length) = some 11 ∧
    ((processTurn 1 exSession10 "Geh links" exTurnOraclesNuggetFail).toOption.map
      fun p => p.2.fun_nugget) = some funNuggetFallback := by
  exact ⟨rfl, rfl, by decide, rfl⟩

/-- C3 amended: the narrator result and the fun-nugget result are both
awaited before the pipeline continues; a narrator failure raises out of
`process_turn` with no turn appended, but a fun-nugget failure is
absorbed inside `_generate_fun_nugget` (game_engine.py:559-561) — the
turn still completes, carrying the fixed fallback nugget. -/
theorem narrator_and_nugget_join (now : Nat) (sIn : Session)
    (choiceText : String) (o : TurnOracles) :
    (∀ e, o.narrator = .error e → processTurn now sIn choiceText o = .error e) ∧
    (∀ r, o.narrator = .ok r →
      ((processTurn now sIn choiceText o).toOption.map fun p => p.1.turns.length) =
        some ((recoverSession now sIn).turns.length + 1) ∧
      ((processTurn now sIn choiceText o).toOption.map fun p => p.2.fun_nugget) =
        some (funNuggetOf o.funNugget)) ∧
    (∀ e, funNuggetOf (.error e) = funNuggetFallback) := by
  refine ⟨?_, ?_, fun e => rfl⟩
  · intro e he
    rw [processTurn, he]
  · intro r hr
    rw [processTurn, hr]
    constructor
    · show some (processTurnState now sIn choiceText o r).turns.length = _
      unfold processTurnState
      dsimp only
      rw [List.length_append]
      rfl
    · rfl

/-- Witness for `narrator_and_nugget_join` at concrete oracles with a
successful narrator call. -/
theorem narrator_and_nugget_join_witness :
    exTurnOracles.narrator = .ok exNarrator ∧
    ((processTurn 1 exSession10 "Geh links" exTurnOracles).toOption.map
      fun p => p.1.turns.length) =
      some ((recoverSession 1 exSession10).turns.length + 1) := by
  exact ⟨rfl,
    ((narrator_and_nugget_join 1 exSession10 "Geh links" exTurnOracles).2.1
      exNarrator rfl).1⟩

/-- C7: when the safety classifier deems the draft story unsafe, the turn
still succeeds: the returned and persisted story text is the fixed
fallback string, a non-fatal warning is recorded, and the choices and
merged characters are still the ones derived from the unsafe draft
response; safety validation never fails the turn. -/
theorem unsafe_draft_replaced (now : Nat) (sIn : Session) (choiceText : String)
    (o : TurnOracles) (r : NarratorResponse)
    (hn : o.narrator = .ok r) (hverdict : validateSafety o.validator = false) :
    (processTurn now sIn choiceText o).isOk = true ∧
    ((processTurn now sIn choiceText o).toOption.map fun p => p.2.story_text) =
      some processTurnFallbackStory ∧
    ((processTurn now sIn choiceText o).toOption.map fun p =>
        p.1.turns.getLast?.map Turn.story_text) =
      some (some processTurnFallbackStory) ∧
    ((processTurn now sIn choiceText o).toOption.map fun p => p.2.choices) =
      some (narratorChoices r) ∧
    ((processTurn now sIn choiceText o).toOption.map fun p => p.1.character_registry) =
      some (mergeCharacters (recoverSession now sIn).character_registry
        (extractCharactersFromResponse r ((recoverSession now sIn).round + 1))
        ((recoverSession now sIn).round + 1)) ∧
    ((processTurn now sIn choiceText o).toOption.map fun p => p.2.warnings) =
      some ["Unsafe content detected"] := by
  rw [processTurn, hn]
  refine ⟨rfl, ?_, ?_, rfl, rfl, ?_⟩
  · show some (processTurnStep now sIn choiceText o r).story_text = _
    unfold processTurnStep safeStoryText
    rw [hverdict]
    rfl
  · show some ((processTurnState now sIn choiceText o r).turns.getLast?.map
      Turn.story_text) = _
    unfold processTurnState
    dsimp only
    rw [List.getLast?_concat]
    unfold processTurnNewTurn safeStoryText
    rw [hverdict]
    rfl
  · show some (processTurnStep now sIn choiceText o r).warnings = _
    unfold processTurnStep
    rw [hverdict]
    rfl

/-- Witness for `unsafe_draft_replaced`: a classifier verdict without
"SAFE" in it triggers the replacement at concrete inputs. -/
theorem unsafe_draft_replaced_witness :
    (exTurnOraclesUnsafe.narrator = .ok exNarrator ∧
     validateSafety exTurnOraclesUnsafe.validator = false) ∧
    ((processTurn 1 exSession10 "Geh links" exTurnOraclesUnsafe).toOption.map
      fun p => p.2.story_text) = some processTurnFallbackStory := by
  exact ⟨⟨rfl, by decide⟩,
    (unsafe_draft_replaced 1 exSession10 "Geh links" exTurnOraclesUnsafe exNarrator
      rfl (by decide)).2.1⟩

/-- C10: when the safety classifier call itself raises, `_validate_safety`
swallows the exception and returns True (fail-open), so the draft story
is kept unreplaced and no unsafe-content warning is recorded. -/
theorem classifier_error_fails_open (now : Nat) (sIn : Session)
    (choiceText : String) (o : TurnOracles) (r : NarratorResponse) (e : Err)
    (hn : o.narrator = .ok r) (hv : o.validator = .error e) :
    validateSafety o.validator = true ∧
    (processTurn now sIn choiceText o).isOk = true ∧
    ((processTurn now sIn choiceText o).toOption.map fun p => p.2.story_text) =
      some (r.story_text.getD "") ∧
    ((processTurn now sIn choiceText o).toOption.map fun p =>
        p.1.turns.getLast?.map Turn.story_text) =
      some (some (r.story_text.getD "")) ∧
    ((processTurn now sIn choiceText o).toOption.map fun p => p.2.warnings) =
      some [] := by
  have hsafe : validateSafety o.validator = true := by
    rw [hv]
    rfl
  rw [processTurn, hn]
  refine ⟨hsafe, rfl, ?_, ?_, ?_⟩
  · show some (processTurnStep now sIn choiceText o r).story_text = _
    unfold processTurnStep safeStoryText
    rw [hsafe]
    rfl
  · show some ((processTurnState now sIn choiceText o r).turns.getLast?.map
      Turn.story_text) = _
    unfold processTurnState
    dsimp only
    rw [List.getLast?_concat]
    unfold processTurnNewTurn safeStoryText
    rw [hsafe]
    rfl
  · show some (processTurnStep now sIn choiceText o r).warnings = _
    unfold processTurnStep
    rw [hsafe]
    rfl

/-- Witness for `classifier_error_fails_open` at a concrete raising
classifier: the draft story survives and no warning is recorded. -/
theorem classifier_error_fails_open_witness :
    (exTurnOraclesValFail.narrator = .ok exNarrator ∧
     exTurnOraclesValFail.validator = .error { msg := "timeout", ty := "LLMError" }) ∧
    ((processTurn 1 exSession10 "Geh links" exTurnOraclesValFail).toOption.map
      fun p => p.2.story_text) = some (exNarrator.story_text.getD "") ∧
    ((processTurn 1 exSession10 "Geh links" exTurnOraclesValFail).toOption.map
      fun p => p.2.warnings) = some [] := by
  have h := classifier_error_fails_open 1 exSession10 "Geh links"
    exTurnOraclesValFail exNarrator { msg := "timeout", ty := "LLMError" } rfl rfl
  exact ⟨⟨rfl, rfl⟩, h.2.2.1, h.2.2.2.2⟩

/-- C8: when any step of the image sub-pipeline raises — a prompt
derivation failure or degenerately short prompt, an empty variance pool,
or the image-service call itself (intensity analysis never raises, it
defaults to 3) — the job records `{status: failed, error, error_type}`
in the `pending_image` mailbox and modifies nothing else: the turn list
(hence the matching turn's null `image_url`, its story text, choices and
`completed_at`) and the session status, summary, round and registry are
all unchanged; the failure never escapes the job. -/
theorem image_failure_confined (s : Session) (currentRound : Nat)
    (o : ImgOracles) (cfg : VarianceConfig) (cd : List (String × String))
    (i1 i2 i3 : Nat) (e : Err)
    (h : imageJobResult o cfg s.style_guide cd i1 i2 i3 = .error e) :
    (generateChoiceBasedImage s currentRound o cfg cd i1 i2 i3).turns = s.turns ∧
    (generateChoiceBasedImage s currentRound o cfg cd i1 i2 i3).generation_status =
      s.generation_status ∧
    (generateChoiceBasedImage s currentRound o cfg cd i1 i2 i3).summary = s.summary ∧
    (generateChoiceBasedImage s currentRound o cfg cd i1 i2 i3).round = s.round ∧
    (generateChoiceBasedImage s currentRound o cfg cd i1 i2 i3).character_registry =
      s.character_registry ∧
    (generateChoiceBasedImage s currentRound o cfg cd i1 i2 i3).pending_image =
      some (PendingImage.mk ImgStatus.failed currentRound none
        (some e.msg) (some e.ty)) := by
  unfold generateChoiceBasedImage
  rw [h]
  exact ⟨rfl, rfl, rfl, rfl, rfl, rfl⟩

/-- Witness for `image_failure_confined`: a concrete image-service
timeout leaves the session's turns and status intact and parks the error
in the mailbox. -/
theorem image_failure_confined_witness :
    imageJobResult exImgOraclesFail exVarianceConfig exSession10.style_guide [] 0 0 0 =
      .error { msg := "Read timed out", ty := "TimeoutError" } ∧
    ((generateChoiceBasedImage exSession10 10 exImgOraclesFail exVarianceConfig
        [] 0 0 0).turns = exSession10.turns ∧
     (generateChoiceBasedImage exSession10 10 exImgOraclesFail exVarianceConfig
        [] 0 0 0).pending_image =
      some (PendingImage.mk ImgStatus.failed 10 none
        (some "Read timed out") (some "TimeoutError"))) := by
  have h : imageJobResult exImgOraclesFail exVarianceConfig exSession10.style_guide
      [] 0 0 0 = .error { msg := "Read timed out", ty := "TimeoutError" } := by
    rfl
  have h2 := image_failure_confined exSession10 10 exImgOraclesFail exVarianceConfig
    [] 0 0 0 { msg := "Read timed out", ty := "TimeoutError" } h
  exact ⟨h, h2.1, h2.2.2.2.2.2⟩

/-! Association-list lemmas for the Python-dict model. -/

/-- Key presence via `any` agrees with `lookup`. -/
theorem any_eq_lookup_isSome {α : Type} (k : String) :
    ∀ m : List (String × α), (m.any fun p => p.1 == k) = (List.lookup k m).isSome := by
  intro m
  induction m with
  | nil => rfl
  | cons p m ih =>
    obtain ⟨k1, v1⟩ := p
    by_cases hk : k1 = k
    · subst hk
      simp [List.lookup]
    · have h1 : (k1 == k) = false := beq_eq_false_iff_ne.mpr hk
      have h2 : (k == k1) = false := beq_eq_false_iff_ne.mpr (Ne.symm hk)
      simp [List.lookup, h1, h2, ih]

/-- Replacing the value at an existing key makes `lookup` return it. -/
theorem lookup_map_replace {α : Type} (k : String) (v : α) :
    ∀ m : List (String × α), (m.any fun p => p.1 == k) = true →
      List.lookup k (m.map fun p => if p.1 == k then (p.1, v) else p) = some v := by
  intro m
  induction m with
  | nil => intro h; cases h
  | cons p m ih =>
    intro h
    obtain ⟨k1, v1⟩ := p
    simp only [List.map_cons]
    by_cases hk : k1 = k
    · subst hk
      rw [if_pos (by simp)]
      simp [List.lookup]
    · have h1 : (k1 == k) = false := beq_eq_false_iff_ne.mpr hk
      have h2 : (k == k1) = false := beq_eq_false_iff_ne.mpr (Ne.symm hk)
      rw [if_neg (by simp [h1])]
      simp only [List.any_cons, h1, Bool.false_or] at h
      simp only [List.lookup, h2]
      exact ih h

/-- Replacing the value at one key leaves other lookups untouched. -/
theorem lookup_map_replace_ne {α : Type} (k k2 : String) (v : α) (hne : k2 ≠ k) :
    ∀ m : List (String × α),
      List.lookup k2 (m.map fun p => if p.1 == k then (p.1, v) else p) =
        List.lookup k2 m := by
  intro m
  induction m with
  | nil => rfl
  | cons p m ih =>
    obtain ⟨k1, v1⟩ := p
    simp only [List.map_cons]
    by_cases hk1 : k1 = k
    · subst hk1
      rw [if_pos (by simp)]
      have h2 : (k2 == k1) = false := beq_eq_false_iff_ne.mpr hne
      simp only [List.lookup, h2]
      exact ih
    · have h1 : (k1 == k) = false := beq_eq_false_iff_ne.mpr hk1
      rw [if_neg (by simp [h1])]
      cases hk2 : (k2 == k1)
      · simp only [List.lookup, hk2]
        exact ih
      · simp only [List.lookup, hk2]

/-- Appending a fresh key makes `lookup` find its value. -/
theorem lookup_append_fresh {α : Type} (k : String) (v : α) :
    ∀ m : List (String × α), (m.any fun p => p.1 == k) = false →
      List.lookup k (m ++ [(k, v)]) = some v := by
  intro m
  induction m with
  | nil =>
    intro _
    simp [List.lookup]
  | cons p m ih =>
    intro h
    obtain ⟨k1, v1⟩ := p
    simp only [List.any_cons, Bool.or_eq_false_iff] at h
    have h2 : (k == k1) = false := by
      rcases beq_eq_false_iff_ne.mp h.1 with hne
      exact beq_eq_false_iff_ne.mpr (Ne.symm hne)
    simp [List.lookup, h2, ih h.2]

/-- Appending a pair with a different key leaves a lookup untouched. -/
theorem lookup_append_ne {α : Type} (k k2 : String) (v : α) (hne : k2 ≠ k) :
    ∀ m : List (String × α),
      List.lookup k2 (m ++ [(k, v)]) = List.lookup k2 m := by
  intro m
  induction m with
  | nil => simp [List.lookup, beq_eq_false_iff_ne.mpr hne]
  | cons p m ih =>
    obtain ⟨k1, v1⟩ := p
    cases hk2 : (k2 == k1)
    · simp [List.lookup, hk2, ih]
    · simp [List.lookup, hk2]

/-- Python dict assignment then lookup of the same key. -/
theorem lookup_dictInsert_self {α : Type} (k : String) (v : α)
    (m : List (String × α)) : List.lookup k (dictInsert m k v) = some v := by
  unfold dictInsert
  cases hany : (m.any fun p => p.1 == k)
  · rw [if_neg (by simp [hany])]
    exact lookup_append_fresh k v m hany
  · rw [if_pos (by simp [hany])]
    exact lookup_map_replace k v m hany

/-- Python dict assignment leaves other keys untouched. -/
theorem lookup_dictInsert_ne {α : Type} (k k2 : String) (v : α) (hne : k2 ≠ k)
    (m : List (String × α)) :
    List.lookup k2 (dictInsert m k v) = List.lookup k2 m := by
  unfold dictInsert
  cases hany : (m.any fun p => p.1 == k)
  · rw [if_neg (by simp [hany])]
    exact lookup_append_ne k k2 v hne m
  · rw [if_pos (by simp [hany])]
    exact lookup_map_replace_ne k k2 v hne m

/-- In-place modification then lookup of the same key. -/
theorem lookup_dictModify_self {α : Type} (k : String) (f : α → α) :
    ∀ m : List (String × α),
      List.lookup k (dictModify m k f) = (List.lookup k m).map f := by
  intro m
  unfold dictModify
  induction m with
  | nil => rfl
  | cons p m ih =>
    obtain ⟨k1, v1⟩ := p
    simp only [List.map_cons]
    by_cases hk : k1 = k
    · subst hk
      rw [if_pos (by simp)]
      simp [List.lookup]
    · have h1 : (k1 == k) = false := beq_eq_false_iff_ne.mpr hk
      have h2 : (k == k1) = false := beq_eq_false_iff_ne.mpr (Ne.symm hk)
      rw [if_neg (by simp [h1])]
      simp only [List.lookup, h2]
      exact ih

/-- In-place modification leaves other keys untouched. -/
theorem lookup_dictModify_ne {α : Type} (k k2 : String) (f : α → α)
    (hne : k2 ≠ k) :
    ∀ m : List (String × α),
      List.lookup k2 (dictModify m k f) = List.lookup k2 m := by
  intro m
  unfold dictModify
  induction m with
  | nil => rfl
  | cons p m ih =>
    obtain ⟨k1, v1⟩ := p
    simp only [List.map_cons]
    by_cases hk1 : k1 = k
    · subst hk1
      rw [if_pos (by simp)]
      have h2 : (k2 == k1) = false := beq_eq_false_iff_ne.mpr hne
      simp only [List.lookup, h2]
      exact ih
    · have h1 : (k1 == k) = false := beq_eq_false_iff_ne.mpr hk1
      rw [if_neg (by simp [h1])]
      cases hk2 : (k2 == k1)
      · simp only [List.lookup, hk2]
        exact ih
      · simp only [List.lookup, hk2]

/-- One merge step never touches a key other than the observed name. -/
theorem lookup_mergeStep_ne (currentRound : Nat) (m : List (String × Character))
    (c : Character) (n : String) (hne : n ≠ c.name) :
    List.lookup n (mergeStep currentRound m c) = List.lookup n m := by
  unfold mergeStep
  cases hany : (m.any fun p => p.1 == c.name)
  · rw [if_neg (by simp [hany])]
    by_cases hdesc : c.description.isNone
    · rw [if_pos hdesc]
    · rw [if_neg hdesc]
      exact lookup_dictInsert_ne c.name n c hne m
  · rw [if_pos (by simp [hany])]
    exact lookup_dictModify_ne c.name n _ hne m

/-- With pairwise-distinct names, `find?` by name returns the member itself. -/
theorem find?_name_self :
    ∀ l : List Character, (l.map Character.name).Nodup →
      ∀ c ∈ l, l.find? (fun x => x.name == c.name) = some c := by
  intro l
  induction l with
  | nil =>
    intro _ c hc
    cases hc
  | cons e l ih =>
    intro hnd c hc
    obtain ⟨hnotin, hnd2⟩ := List.nodup_cons.mp hnd
    rcases List.mem_cons.mp hc with rfl | hmem
    · simp [List.find?]
    · have hne : e.name ≠ c.name := by
        intro heq
        exact hnotin (heq ▸ List.mem_map_of_mem Character.name hmem)
      rw [List.find?_cons_of_neg _ (by simp [hne])]
      exact ih hnd2 c hmem

/-- Absent names are not found. -/
theorem find?_name_none (l : List Character) (n : String)
    (h : n ∉ l.map Character.name) :
    l.find? (fun x => x.name == n) = none := by
  rw [List.find?_eq_none]
  intro x hx hpx
  rw [beq_iff_eq] at hpx
  exact h (hpx ▸ List.mem_map_of_mem Character.name hx)

/-- The registry-map lookup behaviour of the merge fold: a name observed
with distinct names either bumps `last_seen_round` of the stored entry,
inserts the described newcomer as-is, or is skipped when undescribed;
unobserved names keep their stored entry. -/
theorem mergeFold_lookup (currentRound : Nat) (n : String) :
    ∀ (obs : List Character) (m : List (String × Character)),
      (obs.map Character.name).Nodup →
      List.lookup n (obs.foldl (mergeStep currentRound) m) =
        (match obs.find? (fun x => x.name == n), List.lookup n m with
         | some _, some v => some { v with last_seen_round := currentRound }
         | some c, none => if c.description.isSome then some c else none
         | none, lv => lv) := by
  intro obs
  induction obs with
  | nil =>
    intro m _
    rfl
  | cons c obs ih =>
    intro m hnd
    obtain ⟨hnotin, hnd2⟩ := List.nodup_cons.mp hnd
    rw [List.foldl_cons, ih (mergeStep currentRound m c) hnd2]
    by_cases hcn : c.name = n
    · subst hcn
      have hf : (c :: obs).find? (fun x => x.name == c.name) = some c := by
        simp [List.find?]
      have hfo : obs.find? (fun x => x.name == c.name) = none := by
        rw [List.find?_eq_none]
        intro x hx hpx
        rw [beq_iff_eq] at hpx
        exact hnotin (hpx ▸ List.mem_map_of_mem Character.name hx)
      rw [hf, hfo]
      show List.lookup c.name (mergeStep currentRound m c) = _
      unfold mergeStep
      cases hany : (m.any fun p => p.1 == c.name)
      · have hlm : List.lookup c.name m = none := by
          have h1 := any_eq_lookup_isSome c.name m
          rw [hany] at h1
          cases hl : List.lookup c.name m
          · rfl
          · rw [hl] at h1
            cases h1
        rw [if_neg (by simp [hany]), hlm]
        by_cases hdesc : c.description.isNone
        · rw [if_pos hdesc, hlm]
          have hds : c.description.isSome = false := by
            cases hd : c.description
            · rfl
            · rw [hd] at hdesc
              cases hdesc
          simp [hds]
        · rw [if_neg hdesc, lookup_dictInsert_self]
          have hds : c.description.isSome = true := by
            cases hd : c.description
            · rw [hd] at hdesc
              exact absurd rfl hdesc
            · rfl
          simp [hds]
      · rw [if_pos (by simp [hany]), lookup_dictModify_self]
        have hsome : (List.lookup c.name m).isSome := by
          rw [← any_eq_lookup_isSome, hany]
        cases hl : List.lookup c.name m
        · rw [hl] at hsome
          cases hsome
        · rfl
    · have hne : n ≠ c.name := fun h => hcn h.symm
      rw [lookup_mergeStep_ne currentRound m c n hne]
      have hf : (c :: obs).find? (fun x => x.name == n) =
          obs.find? (fun x => x.name == n) := by
        rw [List.find?_cons_of_neg _ (by simp [hcn])]
      rw [hf]

/-- With pairwise-distinct names, looking a member up in the name-keyed
pair list returns it. -/
theorem lookup_pairList_self :
    ∀ l : List Character, (l.map Character.name).Nodup →
      ∀ c ∈ l, List.lookup c.name (l.map fun x => (x.name, x)) = some c := by
  intro l
  induction l with
  | nil =>
    intro _ c hc
    cases hc
  | cons e l ih =>
    intro hnd c hc
    obtain ⟨hnotin, hnd2⟩ := List.nodup_cons.mp hnd
    simp only [List.map_cons]
    rcases List.mem_cons.mp hc with rfl | hmem
    · simp [List.lookup]
    · have hne : c.name ≠ e.name := by
        intro heq
        exact hnotin (heq ▸ List.mem_map_of_mem Character.name hmem)
      have h2 : (c.name == e.name) = false := beq_eq_false_iff_ne.mpr hne
      simp only [List.lookup, h2]
      exact ih hnd2 c hmem

/-- Unregistered names are not found in the name-keyed pair list. -/
theorem lookup_pairList_none :
    ∀ (l : List Character) (n : String), n ∉ l.map Character.name →
      List.lookup n (l.map fun x => (x.name, x)) = none := by
  intro l
  induction l with
  | nil =>
    intro n _
    rfl
  | cons e l ih =>
    intro n h
    simp only [List.map_cons, List.mem_cons, not_or] at h
    have h2 : (n == e.name) = false := beq_eq_false_iff_ne.mpr h.1
    simp only [List.map_cons, List.lookup, h2]
    exact ih n h.2

/-- Folding fresh, pairwise-distinct names into the dict just appends the
name-keyed pairs (the dict comprehension of character_manager.py:70). -/
theorem registryMap_eq :
    ∀ (l : List Character) (acc : List (String × Character)),
      (∀ c ∈ l, (acc.any fun p => p.1 == c.name) = false) →
      (l.map Character.name).Nodup →
      l.foldl (fun m c => dictInsert m c.name c) acc =
        acc ++ (l.map fun c => (c.name, c)) := by
  intro l
  induction l with
  | nil =>
    intro acc _ _
    simp
  | cons c l ih =>
    intro acc hfresh hnd
    obtain ⟨hnotin, hnd2⟩ := List.nodup_cons.mp hnd
    rw [List.foldl_cons]
    have hc : dictInsert acc c.name c = acc ++ [(c.name, c)] := by
      unfold dictInsert
      rw [if_neg (by simp [hfresh c (List.mem_cons_self c l)])]
    have hfresh2 : ∀ c2 ∈ l,
        ((acc ++ [(c.name, c)]).any fun p => p.1 == c2.name) = false := by
      intro c2 hc2
      rw [List.any_append]
      have hne : c.name ≠ c2.name := by
        intro heq
        exact hnotin (heq ▸ List.mem_map_of_mem Character.name hc2)
      have hx : ([((c.name : String), c)].any fun p => p.1 == c2.name) = false := by
        simp [beq_eq_false_iff_ne.mpr hne]
      rw [hfresh c2 (List.mem_cons_of_mem c hc2), hx]
      rfl
    rw [hc, ih (acc ++ [(c.name, c)]) hfresh2 hnd2]
    simp

/-- The name-keyed pair list stores each character under its own name. -/
theorem keysMatch_pairList (l : List Character) :
    KeysMatch (l.map fun x => (x.name, x)) := by
  intro p hp
  obtain ⟨x, _, rfl⟩ := List.mem_map.mp hp
  rfl

/-- Dict insertion of a character under its own name keeps keys matched. -/
theorem keysMatch_dictInsert (m : List (String × Character)) (c : Character)
    (h : KeysMatch m) : KeysMatch (dictInsert m c.name c) := by
  intro p hp
  unfold dictInsert at hp
  by_cases hany : (m.any fun q => q.1 == c.name)
  · rw [if_pos (by simp [hany])] at hp
    obtain ⟨q, hq, hpe⟩ := List.mem_map.mp hp
    cases hqq : (q.1 == c.name)
    · rw [hqq] at hpe
      simp only [Bool.false_eq_true, if_false] at hpe
      rw [← hpe]
      exact h q hq
    · rw [hqq] at hpe
      simp only [if_true] at hpe
      rw [← hpe]
      exact (beq_iff_eq.mp hqq).symm
  · rw [if_neg (by simp [hany])] at hp
    rcases List.mem_append.mp hp with hm | hs
    · exact h p hm
    · rcases List.mem_cons.mp hs with rfl | hn
      · rfl
      · cases hn

/-- Bumping `last_seen_round` in place keeps keys matched. -/
theorem keysMatch_dictModify (m : List (String × Character)) (k : String)
    (currentRound : Nat) (h : KeysMatch m) :
    KeysMatch (dictModify m k fun old => { old with last_seen_round := currentRound }) := by
  intro p hp
  unfold dictModify at hp
  obtain ⟨q, hq, hpe⟩ := List.mem_map.mp hp
  cases hqq : (q.1 == k)
  · rw [hqq] at hpe
    simp only [Bool.false_eq_true, if_false] at hpe
    rw [← hpe]
    exact h q hq
  · rw [hqq] at hpe
    simp only [if_true] at hpe
    rw [← hpe]
    exact h q hq

/-- One merge step keeps keys matched. -/
theorem keysMatch_mergeStep (currentRound : Nat) (m : List (String × Character))
    (c : Character) (h : KeysMatch m) : KeysMatch (mergeStep currentRound m c) := by
  unfold mergeStep
  by_cases hany : (m.any fun p => p.1 == c.name)
  · rw [if_pos (by simp [hany])]
    exact keysMatch_dictModify m c.name currentRound h
  · rw [if_neg (by simp [hany])]
    by_cases hdesc : c.description.isNone
    · rw [if_pos hdesc]
      exact h
    · rw [if_neg hdesc]
      exact keysMatch_dictInsert m c h

/-- The whole merge fold keeps keys matched. -/
theorem keysMatch_foldl (currentRound : Nat) :
    ∀ (obs : List Character) (m : List (String × Character)), KeysMatch m →
      KeysMatch (obs.foldl (mergeStep currentRound) m) := by
  intro obs
  induction obs with
  | nil =>
    intro m h
    exact h
  | cons c obs ih =>
    intro m h
    rw [List.foldl_cons]
    exact ih (mergeStep currentRound m c) (keysMatch_mergeStep currentRound m c h)

/-- Searching the registry list by name agrees with the dict lookup. -/
theorem find?_map_snd (n : String) :
    ∀ m : List (String × Character), KeysMatch m →
      ((m.map fun p => p.2).find? fun x => n == x.name) = List.lookup n m := by
  intro m
  induction m with
  | nil =>
    intro _
    rfl
  | cons p m ih =>
    intro hkm
    obtain ⟨k1, v1⟩ := p
    have hv : v1.name = k1 := hkm (k1, v1) (List.mem_cons_self _ _)
    simp only [List.map_cons, List.find?, hv]
    cases hnk : (n == k1)
    · simp only [List.lookup, hnk]
      exact ih fun q hq => hkm q (List.mem_cons_of_mem _ hq)
    · simp only [List.lookup, hnk]

/-- C9: with pairwise-distinct names on both sides, `merge_characters`
updates exactly `last_seen_round` of a registered character that is
observed again (its description and `first_seen_round` are untouched),
inserts an observed newcomer verbatim only when it carries a
description, and never inserts an undescribed newcomer. -/
theorem merge_characters_spec (existing observed : List Character)
    (currentRound : Nat)
    (hex : (existing.map Character.name).Nodup)
    (hobs : (observed.map Character.name).Nodup) :
    (∀ c ∈ existing,
       ((mergeCharacters existing observed currentRound).find?
           fun x => c.name == x.name) =
         some { c with last_seen_round :=
           if observed.any (fun x => x.name == c.name) then currentRound
           else c.last_seen_round }) ∧
    (∀ c ∈ observed, c.name ∉ existing.map Character.name →
       c.description = none →
       ((mergeCharacters existing observed currentRound).find?
           fun x => c.name == x.name) = none) ∧
    (∀ c ∈ observed, c.name ∉ existing.map Character.name →
       c.description.isSome = true →
       ((mergeCharacters existing observed currentRound).find?
           fun x => c.name == x.name) = some c) := by
  have hreg : existing.foldl (fun m c => dictInsert m c.name c) [] =
      existing.map fun c => (c.name, c) := by
    have h := registryMap_eq existing [] (fun c _ => rfl) hex
    simpa using h
  have hkm : KeysMatch (observed.foldl (mergeStep currentRound)
      (existing.map fun c => (c.name, c))) :=
    keysMatch_foldl currentRound observed _ (keysMatch_pairList existing)
  refine ⟨?_, ?_, ?_⟩
  · intro c hc
    unfold mergeCharacters
    rw [hreg, find?_map_snd c.name _ hkm,
      mergeFold_lookup currentRound c.name observed _ hobs,
      lookup_pairList_self existing hex c hc]
    cases hfind : observed.find? fun x => x.name == c.name
    · have hany : (observed.any fun x => x.name == c.name) = false := by
        cases ha : (observed.any fun x => x.name == c.name)
        · rfl
        · obtain ⟨x, hx, hpx⟩ := List.any_eq_true.mp ha
          exact absurd hpx (List.find?_eq_none.mp hfind x hx)
      rw [hany]
      simp
    · have hany : (observed.any fun x => x.name == c.name) = true := by
        have hmem := List.mem_of_find?_eq_some hfind
        have hpx := List.find?_some hfind
        exact List.any_eq_true.mpr ⟨_, hmem, hpx⟩
      rw [hany]
      simp
  · intro c hc hnot hdesc
    unfold mergeCharacters
    rw [hreg, find?_map_snd c.name _ hkm,
      mergeFold_lookup currentRound c.name observed _ hobs,
      lookup_pairList_none existing c.name hnot,
      find?_name_self observed hobs c hc]
    simp [hdesc]
  · intro c hc hnot hdesc
    unfold mergeCharacters
    rw [hreg, find?_map_snd c.name _ hkm,
      mergeFold_lookup currentRound c.name observed _ hobs,
      lookup_pairList_none existing c.name hnot,
      find?_name_self observed hobs c hc]
    simp [hdesc]

/-- Witness for `merge_characters_spec` on the concrete registry: the
returning character keeps her description with `last_seen_round` bumped
to 3, the described fox is inserted verbatim, the undescribed raven is
not inserted. -/
theorem merge_characters_spec_witness :
    ((exRegistry.map Character.name).Nodup ∧
     (exObserved.map Character.name).Nodup) ∧
    ((mergeCharacters exRegistry exObserved 3).find?
        fun x => exMira.name == x.name) =
      some { name := "Mira", description := some "rote Jacke",
             first_seen_round := 1, last_seen_round := 3 } ∧
    ((mergeCharacters exRegistry exObserved 3).find?
        fun x => exFuchs.name == x.name) = some exFuchs ∧
    ((mergeCharacters exRegistry exObserved 3).find?
        fun x => exRabe.name == x.name) = none := by
  have h := merge_characters_spec exRegistry exObserved 3 (by decide) (by decide)
  refine ⟨⟨by decide, by decide⟩, ?_, ?_, ?_⟩
  · rw [h.1 exMira (by decide)]
    decide
  · exact h.2.2 exFuchs (by decide) (by decide) (by decide)
  · exact h.2.1 exRabe (by decide) (by decide) (by decide)

end Kinder
